import Mathlib

/-!
Verification of `src/build/deps.py` (earlier variant): a lockfile dependency
resolver.  The script reads `build.zig.zon2json-lock`, ensures a `deps/`
cache directory exists, and for each lockfile entry with a `url` field
either shallow-clones a pinned git revision and tars the working tree
(`git+` schemes) or downloads the file over HTTP, printing one mapping line
`<url> -> <local path>` per processed entry.

The embedding models:
  * `urllib.parse.urlparse` / `ParseResult.geturl` (CPython semantics for
    the scheme/netloc/path/params/query/fragment split; the WHATWG control
    character stripping is omitted as no claim involves control characters);
  * `pathlib.PurePosixPath.parts` (for the URL-path basename);
  * the `clone` function, including the exact argv lists of the subprocess
    invocations and a model of the external `tar` utility (gzip compression
    is applied exactly when a compression option appears in the argv);
  * the `main` loop, as a function from an upstream oracle (HTTP bodies and
    fetched working trees), a parsed lockfile (`none` models an unreadable
    or malformed lockfile, whose `json.load` error nothing catches) and an
    initial filesystem state to a final state, the printed lines in order,
    and an optional uncaught error.
-/

/-! ## Basic string utilities (structural, kernel-reducible) -/

/-- Bytes of a file, as a list of byte values. -/
abbrev Bytes := List Nat

/-- Python `s.startswith(p)`. -/
def startsWithStr (s p : String) : Bool :=
  p.data.isPrefixOf s.data

/-- Python `s.removeprefix("git+")`, as used on the URL scheme. -/
def removeGitPlus (s : String) : String :=
  if startsWithStr s "git+" then ⟨s.data.drop 4⟩ else s

/-- Split a character list at the first occurrence of `c`:
`some (before, after)` with `c` itself dropped, or `none` if absent. -/
def splitFirst (c : Char) (cs : List Char) : Option (List Char × List Char) :=
  match cs.findIdx? (· = c) with
  | none => none
  | some i => some (cs.take i, cs.drop (i + 1))

/-! ## `urllib.parse` model -/

/-- Model of `urllib.parse.ParseResult`. -/
structure ParseResult where
  scheme : String
  netloc : String
  path : String
  params : String
  query : String
  fragment : String
deriving Repr, DecidableEq

/-- Characters CPython allows in a URL scheme (`scheme_chars`). -/
def schemeChar (c : Char) : Bool :=
  c.isAlpha || c.isDigit || c = '+' || c = '-' || c = '.'

/-- Scheme split of `urlsplit`: if the text before the first `:` is a valid
scheme (first char alphabetic, all chars scheme characters), return the
lowercased scheme and the rest; otherwise no scheme. -/
def splitScheme (cs : List Char) : List Char × List Char :=
  match cs.findIdx? (· = ':') with
  | none => ([], cs)
  | some i =>
    if 0 < i ∧ (cs.headI).isAlpha ∧ (cs.take i).all schemeChar then
      ((cs.take i).map Char.toLower, cs.drop (i + 1))
    else ([], cs)

/-- Netloc split of `urlsplit`: if the remainder starts with `//`, the
netloc runs until the next `/`, `?` or `#`. -/
def splitNetloc (cs : List Char) : List Char × List Char :=
  match cs with
  | '/' :: '/' :: rest =>
    (rest.takeWhile (fun c => c ≠ '/' ∧ c ≠ '?' ∧ c ≠ '#'),
     rest.dropWhile (fun c => c ≠ '/' ∧ c ≠ '?' ∧ c ≠ '#'))
  | _ => ([], cs)

/-- Params split of `urlparse._splitparams`: the params are what follows the
first `;` of the last path segment. -/
def splitParams (cs : List Char) : List Char × List Char :=
  if cs.contains '/' then
    let after := (cs.reverse.takeWhile (· ≠ '/')).reverse
    let before := cs.take (cs.length - after.length)
    match splitFirst ';' after with
    | none => (cs, [])
    | some (a, b) => (before ++ a, b)
  else
    match splitFirst ';' cs with
    | none => (cs, [])
    | some (a, b) => (a, b)

/-- Model of `urllib.parse.urlparse`: scheme, then netloc, then fragment, then query,
then params, exactly in CPython's order. -/
def urlparse (s : String) : ParseResult :=
  let (scheme, rest) := splitScheme s.data
  let (netloc, rest) := splitNetloc rest
  let (rest, fragment) :=
    match splitFirst '#' rest with
    | none => (rest, [])
    | some (a, b) => (a, b)
  let (rest, query) :=
    match splitFirst '?' rest with
    | none => (rest, [])
    | some (a, b) => (a, b)
  let (path, params) := splitParams rest
  { scheme := ⟨scheme⟩, netloc := ⟨netloc⟩, path := ⟨path⟩,
    params := ⟨params⟩, query := ⟨query⟩, fragment := ⟨fragment⟩ }

/-- Model of `ParseResult.geturl`, i.e. `urllib.parse.urlunparse`. -/
def ParseResult.geturl (r : ParseResult) : String :=
  let url := if r.params ≠ "" then r.path ++ ";" ++ r.params else r.path
  let url :=
    if r.netloc ≠ "" ∨ startsWithStr url "//" then
      "//" ++ r.netloc ++
        (if url ≠ "" ∧ ¬ startsWithStr url "/" then "/" ++ url else url)
    else url
  let url := if r.scheme ≠ "" then r.scheme ++ ":" ++ url else url
  let url := if r.query ≠ "" then url ++ "?" ++ r.query else url
  if r.fragment ≠ "" then url ++ "#" ++ r.fragment else url

/-- Model of `pathlib.PurePosixPath(p).parts`: a leading `/` becomes a root
component, empty and `.` segments are dropped. -/
def pathParts (p : String) : List String :=
  let comps := ((p.data.splitOn '/').map fun cs => (⟨cs⟩ : String)).filter
    fun c => c ≠ "" ∧ c ≠ "."
  if startsWithStr p "/" then "/" :: comps else comps

/-! ## Model of the external tools (`git`, `tar`) and the filesystem -/

/-- A working tree: files as (path components relative to the tree root,
content). -/
abbrev WorkTree := List (List String × Bytes)

/-- An archive produced by the `tar` utility: whether gzip compression was
applied, and the member entries (full path components, content). -/
structure Archive where
  compressed : Bool
  entries : List (List String × Bytes)
deriving Repr, DecidableEq

/-- Content of a file in the cache directory: raw downloaded bytes, or the
output of the archiving tool. -/
inductive FileData where
  | raw (body : Bytes)
  | archive (a : Archive)
deriving Repr, DecidableEq

/-- Returns `some a.compressed` when the file is a tar archive. -/
def fdCompressed : FileData → Option Bool
  | .raw _ => none
  | .archive a => some a.compressed

/-- Entries of the file when it is a tar archive. -/
def fdEntries : FileData → List (List String × Bytes)
  | .raw _ => []
  | .archive a => a.entries

/-- The argv of the archiving step in `clone`:
`tar --create --file <file> --exclude .git <member>` (the code passes
`str(file.resolve())`; under a fixed working directory this resolves the
same relative path, so the model keeps the relative name). -/
def tarArgv (file member : String) : List String :=
  ["tar", "--create", "--file", file, "--exclude", ".git", member]

/-- The argv options that make GNU `tar --create` apply gzip compression
(`-z`/`--gzip` directly; `-a`/`--auto-compress` via the `.gz` suffix). -/
def gzipOptions : List String :=
  ["-z", "--gzip", "--gunzip", "--ungzip", "-a", "--auto-compress"]

/-- The `--exclude` patterns present in a `tar` argv. -/
def tarExcludes : List String → List String
  | [] => []
  | [_] => []
  | a :: p :: rest =>
    if a = "--exclude" then p :: tarExcludes rest else tarExcludes (p :: rest)

/-- Model of the external `tar` utility for the invocation shape used here:
one member directory `member` whose contents are `contents`; an entry is
kept when none of its path components matches an `--exclude` pattern, and
gzip compression is applied exactly when a compression option appears in
the argv. -/
def tarCreateArchive (argv : List String) (member : String)
    (contents : WorkTree) : Archive :=
  { compressed := argv.any (fun a => gzipOptions.contains a),
    entries :=
      (contents.filter fun e =>
        e.1.all fun c => !(tarExcludes argv).contains c).map
        fun e => (member :: e.1, e.2) }

/-- The `.git` metadata directory that `git init` leaves in the working
directory (representative files; their content is irrelevant to every
claim). -/
def gitMetadata : WorkTree :=
  [([".git", "HEAD"], []), ([".git", "config"], [])]

/-- The upstream world, held fixed across runs: HTTP response bodies by
URL, and the working tree obtained by shallow-fetching a ref from a
remote and checking out `FETCH_HEAD`. -/
structure Upstream where
  http : String → Bytes
  tree : String → String → WorkTree

/-- Filesystem state: whether `deps/` exists, and the files by path. -/
structure FS where
  depsExists : Bool
  files : String → Option FileData

/-- Write (create or overwrite) a file. -/
def FS.write (fs : FS) (n : String) (d : FileData) : FS :=
  { fs with files := fun m => if m = n then some d else fs.files m }

/-! ## The resolver itself (`clone` and `main` of `deps.py`) -/

/-- The `repo = urllib.parse.ParseResult(...)` reconstruction in `clone`:
the scheme with the `git+` prefix removed, netloc and path kept, params,
query and fragment emptied. -/
def cloneRemote (url : ParseResult) : ParseResult :=
  { scheme := removeGitPlus url.scheme,
    netloc := url.netloc,
    path := url.path,
    params := "",
    query := "",
    fragment := "" }

/-- Result of `clone`: the archive path returned, the bytes written there,
and the argv of every subprocess run, in order. -/
structure CloneResult where
  file : String
  data : FileData
  cmds : List (List String)
deriving Repr

/-- The `clone` function of `deps.py`: derive the remote address, archive
the shallow checkout of `url.fragment` into
`deps/{name}-{fragment}.tar.gz` with internal root `{name}-{fragment}`,
excluding `.git`. -/
def clone (up : Upstream) (deps name : String) (url : ParseResult) :
    CloneResult :=
  let repo := cloneRemote url
  let file := deps ++ "/" ++ name ++ "-" ++ url.fragment ++ ".tar.gz"
  let member := name ++ "-" ++ url.fragment
  let workTree := gitMetadata ++ up.tree repo.geturl url.fragment
  { file := file,
    data := .archive (tarCreateArchive (tarArgv file member) member workTree),
    cmds :=
      [["git", "init"],
       ["git", "remote", "add", "origin", repo.geturl],
       ["git", "fetch", "origin", "--depth=1", url.fragment],
       ["git", "checkout", "FETCH_HEAD"],
       tarArgv file member] }

/-- A lockfile entry record: the JSON object's string fields in order
(`data["k"]` is a `KeyError` when `"k"` is absent). -/
structure EntryRec where
  fields : List (String × String)
deriving Repr, DecidableEq

/-- Python `data["k"]`-style lookup, `none` when absent. -/
def EntryRec.get? (r : EntryRec) (k : String) : Option String :=
  (r.fields.find? fun f => f.1 = k).map fun f => f.2

/-- The uncaught errors the script can raise: a lockfile open/parse
failure, a `KeyError` on a missing record field, an `IndexError` on
`parts[-1]` of an empty path.  `KeyError` and `IndexError` are both
`LookupError`s in Python. -/
inductive RunErr where
  | lockfile
  | keyError (k : String)
  | indexError
deriving Repr, DecidableEq

/-- Whether the error is a Python `LookupError`. -/
def RunErr.isLookup : RunErr → Bool
  | .keyError _ => true
  | .indexError => true
  | .lockfile => false

/-- The destination-filename computation of the direct-download branch:
`deps/{name}-{basename}` unless `basename` already starts with
`{name}-`. -/
def downloadDest (deps name basename : String) : String :=
  if ¬ startsWithStr basename (name ++ "-") then
    deps ++ "/" ++ name ++ "-" ++ basename
  else deps ++ "/" ++ basename

/-- One iteration of the `main` loop on entry `data`: `ok none` when the
entry is skipped (no `url`), `ok (some (file, content, line))` when a file
is written and a line printed, `error e` when an uncaught exception is
raised before anything is written for the entry.  Field accesses and the
`parts[-1]` indexing happen in the source's order. -/
def processEntry (up : Upstream) (deps : String) (data : EntryRec) :
    Except RunErr (Option (String × FileData × String)) :=
  match data.get? "url" with
  | none => .ok none
  | some u =>
    let url := urlparse u
    if startsWithStr url.scheme "git+" then
      match data.get? "name" with
      | none => .error (.keyError "name")
      | some name =>
        let r := clone up deps name url
        .ok (some (r.file, r.data, u ++ " -> " ++ r.file))
    else
      match (pathParts url.path).getLast? with
      | none => .error .indexError
      | some basename =>
        match data.get? "name" with
        | none => .error (.keyError "name")
        | some name =>
          let file := downloadDest deps name basename
          let body := up.http u
          .ok (some (file, .raw body, u ++ " -> " ++ file))

/-- The `for data in build.values()` loop: process entries in mapping
order, writing each produced file and collecting each printed line; an
uncaught error stops the loop at once. -/
def runEntries (up : Upstream) (deps : String) :
    List EntryRec → FS → FS × List String × Option RunErr
  | [], fs => (fs, [], none)
  | d :: rest, fs =>
    match processEntry up deps d with
    | .error e => (fs, [], some e)
    | .ok none => runEntries up deps rest fs
    | .ok (some (file, fd, line)) =>
      let out := runEntries up deps rest (fs.write file fd)
      (out.1, line :: out.2.1, out.2.2)

/-- The `main` function: create `deps/` (`exist_ok=True`), then load the
lockfile — `none` models a missing or malformed lockfile, whose error is
caught nowhere — then run the loop.  Returns the final filesystem, the
printed lines in order, and the uncaught error if any. -/
def mainRun (up : Upstream) (lock? : Option (List EntryRec)) (fs0 : FS) :
    FS × List String × Option RunErr :=
  let fs1 : FS := { fs0 with depsExists := true }
  match lock? with
  | none => (fs1, [], some .lockfile)
  | some entries => runEntries up "deps" entries fs1

/-! ## Helper lemmas -/

theorem data_append (s t : String) : (s ++ t).data = s.data ++ t.data := by
  cases s; cases t; rfl

/-- The archive's internal root directory name always contains a dash, so it
is never literally `.git` and is never an option string. -/
theorem archiveRoot_ne_git (name frag : String) : name ++ "-" ++ frag ≠ ".git" := by
  intro h
  have hm : '-' ∈ (name ++ "-" ++ frag).data := by
    rw [data_append, data_append]
    exact List.mem_append_left _ (List.mem_append_right _ (by decide))
  rw [h] at hm
  exact absurd hm (by decide)

theorem slash_mem_append (s t : String) (h : '/' ∈ s.data) :
    '/' ∈ (s ++ t).data := by
  rw [data_append]
  exact List.mem_append_left _ h

theorem ne_exclArg_of_slash (s : String) (h : '/' ∈ s.data) :
    s ≠ "--exclude" := by
  intro he
  rw [he] at h
  exact absurd h (by decide)

/-- The only `--exclude` pattern of the archiving argv is `.git` (the
`--file` argument always contains a slash, so it is never itself the literal
`--exclude`). -/
theorem tarExcludes_tarArgv (file member : String) (h : file ≠ "--exclude") :
    tarExcludes (tarArgv file member) = [".git"] := by
  simp [tarArgv, tarExcludes, h]

/-- Writes performed by the entry loop, in order (independent of the
starting filesystem). -/
def runWrites (up : Upstream) (deps : String) :
    List EntryRec → List (String × FileData)
  | [] => []
  | d :: rest =>
    match processEntry up deps d with
    | .error _ => []
    | .ok none => runWrites up deps rest
    | .ok (some (f, fd, _)) => (f, fd) :: runWrites up deps rest

/-- Lines printed by the entry loop, in order. -/
def runLines (up : Upstream) (deps : String) : List EntryRec → List String
  | [] => []
  | d :: rest =>
    match processEntry up deps d with
    | .error _ => []
    | .ok none => runLines up deps rest
    | .ok (some (_, _, line)) => line :: runLines up deps rest

/-- The uncaught error of the entry loop, if any. -/
def runErrOf (up : Upstream) (deps : String) : List EntryRec → Option RunErr
  | [] => none
  | d :: rest =>
    match processEntry up deps d with
    | .error e => some e
    | .ok _ => runErrOf up deps rest

/-- Apply a list of writes to a filesystem, in order. -/
def applyWrites : List (String × FileData) → FS → FS
  | [], fs => fs
  | (k, v) :: ws, fs => applyWrites ws (fs.write k v)

/-- The last write to a given path in a write list. -/
def lastWrite : List (String × FileData) → String → Option FileData
  | [], _ => none
  | (k, v) :: ws, n =>
    match lastWrite ws n with
    | some v' => some v'
    | none => if n = k then some v else none

theorem runEntries_eq (up : Upstream) (deps : String) :
    ∀ (es : List EntryRec) (fs : FS),
      runEntries up deps es fs =
        (applyWrites (runWrites up deps es) fs,
         runLines up deps es, runErrOf up deps es)
  | [], fs => rfl
  | d :: rest, fs => by
    cases hp : processEntry up deps d with
    | error e =>
      simp [runEntries, runWrites, runLines, runErrOf, hp, applyWrites]
    | ok o =>
      cases o with
      | none =>
        simp [runEntries, runWrites, runLines, runErrOf, hp]
        exact congrArg (fun x => (x.1, x.2.1, x.2.2)) (runEntries_eq up deps rest fs) ▸ rfl
      | some w =>
        obtain ⟨f, fd, line⟩ := w
        simp [runEntries, runWrites, runLines, runErrOf, hp, applyWrites,
          runEntries_eq up deps rest (fs.write f fd)]

theorem applyWrites_files : ∀ (ws : List (String × FileData)) (fs : FS) (n : String),
    (applyWrites ws fs).files n =
      (match lastWrite ws n with
       | some v => some v
       | none => fs.files n)
  | [], fs, n => rfl
  | (k, v) :: ws, fs, n => by
    show (applyWrites ws (fs.write k v)).files n = _
    rw [applyWrites_files ws (fs.write k v) n]
    show _ = (match (match lastWrite ws n with
      | some v' => some v'
      | none => if n = k then some v else none) with
      | some v => some v
      | none => fs.files n)
    cases lastWrite ws n with
    | some v' => rfl
    | none =>
      show (if n = k then some v else fs.files n) = _
      by_cases h : n = k <;> simp [h, FS.write]

theorem applyWrites_depsExists : ∀ (ws : List (String × FileData)) (fs : FS),
    (applyWrites ws fs).depsExists = fs.depsExists
  | [], fs => rfl
  | (k, v) :: ws, fs => by
    show (applyWrites ws (fs.write k v)).depsExists = _
    rw [applyWrites_depsExists ws (fs.write k v)]
    rfl

theorem FS.ext2 (a b : FS) (h1 : a.depsExists = b.depsExists)
    (h2 : ∀ n, a.files n = b.files n) : a = b := by
  cases a; cases b
  simp only [FS.mk.injEq]
  exact ⟨h1, funext h2⟩

/-- Re-applying the same write list is a no-op on the filesystem. -/
theorem applyWrites_idem (ws : List (String × FileData)) (fs : FS) :
    applyWrites ws (applyWrites ws fs) = applyWrites ws fs := by
  refine FS.ext2 _ _ ?_ ?_
  · rw [applyWrites_depsExists]
  · intro n
    rw [applyWrites_files, applyWrites_files]
    cases h : lastWrite ws n with
    | some v => rfl
    | none => rfl

/-! ## Claim theorems -/

/-- C3: for every remote-clone entry, the remote address passed to the
version-control client (`git remote add origin <addr>`) is the entry's
parsed URL with the `git+` prefix removed from the scheme and the params,
query and fragment components emptied, while netloc and path are kept
unchanged. -/
theorem c3_remote_address (up : Upstream) (deps name : String)
    (url : ParseResult) :
    (clone up deps name url).cmds[1]? =
      some ["git", "remote", "add", "origin",
        ParseResult.geturl
          { scheme := removeGitPlus url.scheme, netloc := url.netloc,
            path := url.path, params := "", query := "", fragment := "" }] ∧
    cloneRemote url =
      { scheme := removeGitPlus url.scheme, netloc := url.netloc,
        path := url.path, params := "", query := "", fragment := "" } :=
  ⟨rfl, rfl⟩

/-- C7: if opening or parsing the lockfile fails, the run ends with the
uncaught error before any entry is processed: the files are untouched and
no mapping line is printed (only the prior `deps/` creation has
happened). -/
theorem c7_lockfile_failure (up : Upstream) (fs0 : FS) :
    mainRun up none fs0 =
      ({ fs0 with depsExists := true }, [], some RunErr.lockfile) :=
  rfl

/-- C10: the `deps/` cache directory is created before the lockfile is
opened, so it exists after every invocation, including one whose lockfile
load fails. -/
theorem c10_deps_created (up : Upstream) (lock? : Option (List EntryRec))
    (fs0 : FS) :
    (mainRun up lock? fs0).1.depsExists = true := by
  cases lock? with
  | none => rfl
  | some es =>
    show (runEntries up "deps" es { fs0 with depsExists := true }).1.depsExists = true
    rw [runEntries_eq]
    show (applyWrites (runWrites up "deps" es) { fs0 with depsExists := true }).depsExists = true
    rw [applyWrites_depsExists]

/-- C8: with the upstream content held fixed, running the resolver a second
time against the same lockfile leaves the cache in exactly the state of the
first run: every artifact is overwritten with identical content. -/
theorem c8_rerun_idempotent (up : Upstream) (lock? : Option (List EntryRec))
    (fs0 : FS) :
    mainRun up lock? ((mainRun up lock? fs0).1) = mainRun up lock? fs0 := by
  cases lock? with
  | none => rfl
  | some es =>
    have h1 : (mainRun up (some es) fs0).1 =
        applyWrites (runWrites up "deps" es) { fs0 with depsExists := true } := by
      show (runEntries up "deps" es { fs0 with depsExists := true }).1 = _
      rw [runEntries_eq]
    show runEntries up "deps" es
        { (mainRun up (some es) fs0).1 with depsExists := true } =
      runEntries up "deps" es { fs0 with depsExists := true }
    rw [h1]
    have h2 : ({ applyWrites (runWrites up "deps" es)
          { fs0 with depsExists := true } with depsExists := true } : FS) =
        applyWrites (runWrites up "deps" es) { fs0 with depsExists := true } := by
      refine FS.ext2 _ _ ?_ (fun n => rfl)
      rw [applyWrites_depsExists]
    rw [h2, runEntries_eq, runEntries_eq, applyWrites_idem]

instance {e a : Type} [DecidableEq e] [DecidableEq a] : DecidableEq (Except e a)
  | .ok x, .ok y =>
    if h : x = y then .isTrue (by rw [h]) else .isFalse (by simp [h])
  | .ok _, .error _ => .isFalse (by simp)
  | .error _, .ok _ => .isFalse (by simp)
  | .error x, .error y =>
    if h : x = y then .isTrue (by rw [h]) else .isFalse (by simp [h])

/-- Fixed upstream oracle for concrete runs: every HTTP body is `[7, 7]`,
every fetched working tree is empty. -/
def up0 : Upstream := ⟨fun _ => [7, 7], fun _ _ => []⟩

/-- Upstream oracle whose fetched working tree holds one source file. -/
def up1 : Upstream := ⟨fun _ => [], fun _ _ => [(["src", "main.zig"], [1, 2, 3])]⟩

/-- An empty initial filesystem. -/
def fs0 : FS := ⟨false, fun _ => none⟩

/-- A remote-clone lockfile entry: `name="lib"`,
`url="git+https://example.org/repo.git#v1.0"`. -/
def entry1 : EntryRec :=
  ⟨[("name", "lib"), ("url", "git+https://example.org/repo.git#v1.0")]⟩

/-- C1: contrary to the claim, the archiving step applies no gzip
compression.  Processing the remote-clone entry `entry1` writes the
artifact `deps/lib-v1.0.tar.gz` as an uncompressed tar archive: no
subprocess argv of the clone contains any compression option. -/
theorem c1_clone_tar_uncompressed :
    processEntry up1 "deps" entry1 =
      .ok (some ("deps/lib-v1.0.tar.gz",
        .archive { compressed := false,
                   entries := [(["lib-v1.0", "src", "main.zig"], [1, 2, 3])] },
        "git+https://example.org/repo.git#v1.0 -> deps/lib-v1.0.tar.gz")) ∧
    ((clone up1 "deps" "lib"
        (urlparse "git+https://example.org/repo.git#v1.0")).cmds.all
      fun c => c.all fun a => !gzipOptions.contains a) = true := by
  constructor
  · decide
  · decide

/-- C4: for every remote-clone entry, the archive is placed at
`deps/{name}-{fragment}.tar.gz`, every member entry sits under the internal
root directory `{name}-{fragment}`, and no member entry contains a `.git`
path component. -/
theorem c4_archive_layout (up : Upstream) (deps name : String)
    (url : ParseResult) :
    (clone up deps name url).file =
      deps ++ "/" ++ name ++ "-" ++ url.fragment ++ ".tar.gz" ∧
    ∀ e ∈ fdEntries (clone up deps name url).data,
      e.1.head? = some (name ++ "-" ++ url.fragment) ∧ ".git" ∉ e.1 := by
  constructor
  · rfl
  · intro e he
    simp only [clone, fdEntries, tarCreateArchive, List.mem_map,
      List.mem_filter] at he
    obtain ⟨a, ⟨ha, hp⟩, rfl⟩ := he
    refine ⟨rfl, ?_⟩
    intro hmem
    have hslash : '/' ∈ (deps ++ "/" ++ name ++ "-" ++ url.fragment ++ ".tar.gz").data :=
      slash_mem_append _ _ (slash_mem_append _ _ (slash_mem_append _ _
        (slash_mem_append _ _
          (by rw [data_append]; exact List.mem_append_right _ (by decide)))))
    rw [tarExcludes_tarArgv _ _ (ne_exclArg_of_slash _ hslash)] at hp
    rcases List.mem_cons.mp hmem with h1 | h2
    · exact archiveRoot_ne_git name url.fragment h1.symm
    · have := List.all_eq_true.mp hp ".git" h2
      simp at this

/-- C5: a lockfile entry without a `url` field is skipped silently: it
produces no write, no output line, no subprocess or network action, and
iteration continues with the remaining entries unchanged. -/
theorem c5_skip_no_url (up : Upstream) (deps : String) (data : EntryRec)
    (rest : List EntryRec) (fs : FS)
    (h : data.get? "url" = none) :
    processEntry up deps data = .ok none ∧
    runEntries up deps (data :: rest) fs = runEntries up deps rest fs := by
  have hp : processEntry up deps data = .ok none := by
    unfold processEntry
    rw [h]
  exact ⟨hp, by simp [runEntries, hp]⟩

/-- A lockfile entry with no `url` field. -/
def dataNoUrl : EntryRec := ⟨[("name", "x")]⟩

theorem c5_skip_no_url_witness :
    processEntry up0 "deps" dataNoUrl = .ok none ∧
    runEntries up0 "deps" (dataNoUrl :: []) fs0 = runEntries up0 "deps" [] fs0 :=
  c5_skip_no_url up0 "deps" dataNoUrl [] fs0 (by decide)

/-- C2: for a direct-download entry with basename `b` (the final segment of
the URL path), the destination is `deps/{name}-{b}` when `b` does not start
with `{name}-`, and exactly `deps/{b}` when it does. -/
theorem c2_download_dest (up : Upstream) (data : EntryRec) (u name b : String)
    (hu : data.get? "url" = some u)
    (hn : data.get? "name" = some name)
    (hs : startsWithStr (urlparse u).scheme "git+" = false)
    (hb : (pathParts (urlparse u).path).getLast? = some b) :
    processEntry up "deps" data =
      .ok (some (if startsWithStr b (name ++ "-") then "deps/" ++ b
                 else "deps/" ++ name ++ "-" ++ b,
        .raw (up.http u),
        u ++ " -> " ++ (if startsWithStr b (name ++ "-") then "deps/" ++ b
                        else "deps/" ++ name ++ "-" ++ b))) := by
  unfold processEntry
  rw [hu]
  simp only [hs, Bool.false_eq_true, if_false, hb, hn]
  unfold downloadDest
  cases hsw : startsWithStr b (name ++ "-") <;> simp [hsw]

/-- A direct-download lockfile entry: `name="foo"`, basename
`v1.0.tar.gz`. -/
def dataFoo : EntryRec :=
  ⟨[("name", "foo"), ("url", "https://example.org/pkg/v1.0.tar.gz")]⟩

theorem c2_download_dest_witness :
    processEntry up0 "deps" dataFoo =
      .ok (some ("deps/foo-v1.0.tar.gz", .raw [7, 7],
        "https://example.org/pkg/v1.0.tar.gz -> deps/foo-v1.0.tar.gz")) :=
  (c2_download_dest up0 dataFoo "https://example.org/pkg/v1.0.tar.gz" "foo"
    "v1.0.tar.gz" (by decide) (by decide) (by decide) (by decide)).trans
    (by decide)

/-- Every successfully processed entry's printed line is its `url` field,
an arrow, and the written artifact's path. -/
theorem processEntry_line (up : Upstream) (deps : String) (data : EntryRec)
    (f : String) (fd : FileData) (line : String)
    (h : processEntry up deps data = .ok (some (f, fd, line))) :
    ∃ u, data.get? "url" = some u ∧ line = u ++ " -> " ++ f := by
  unfold processEntry at h
  cases hu : data.get? "url" with
  | none =>
    rw [hu] at h
    exact absurd h (by simp)
  | some u =>
    rw [hu] at h
    refine ⟨u, rfl, ?_⟩
    by_cases hg : startsWithStr (urlparse u).scheme "git+" = true
    · simp only [hg, if_true] at h
      cases hn : data.get? "name" with
      | none => rw [hn] at h; exact absurd h (by simp)
      | some name =>
        rw [hn] at h
        simp only [Except.ok.injEq, Option.some.injEq, Prod.mk.injEq] at h
        obtain ⟨hf, -, hl⟩ := h
        rw [← hl, ← hf]
    · simp only [hg, Bool.false_eq_true, if_false] at h
      cases hbn : (pathParts (urlparse u).path).getLast? with
      | none => rw [hbn] at h; exact absurd h (by simp)
      | some b =>
        rw [hbn] at h
        cases hn : data.get? "name" with
        | none => rw [hn] at h; exact absurd h (by simp)
        | some name =>
          rw [hn] at h
          simp only [Except.ok.injEq, Option.some.injEq, Prod.mk.injEq] at h
          obtain ⟨hf, -, hl⟩ := h
          rw [← hl, ← hf]

/-- C6: when the run reaches the end of the lockfile without an error,
exactly the successfully processed entries emit one standard-output line
each, in lockfile mapping order, and every such line is
`<url field> -> <artifact path>`. -/
theorem c6_output_lines (up : Upstream) (deps : String) (es : List EntryRec)
    (fs : FS)
    (h : (runEntries up deps es fs).2.2 = none) :
    (runEntries up deps es fs).2.1 =
      es.filterMap (fun d =>
        match processEntry up deps d with
        | .ok (some (_, _, line)) => some line
        | _ => none) ∧
    ∀ d ∈ es, ∀ f fd line,
      processEntry up deps d = .ok (some (f, fd, line)) →
      ∃ u, d.get? "url" = some u ∧ line = u ++ " -> " ++ f := by
  constructor
  · rw [runEntries_eq] at h ⊢
    show runLines up deps es = _
    replace h : runErrOf up deps es = none := h
    induction es with
    | nil => rfl
    | cons d rest ih =>
      cases hp : processEntry up deps d with
      | error e =>
        rw [runErrOf, hp] at h
        exact absurd h (by simp)
      | ok o =>
        cases o with
        | none =>
          rw [runErrOf, hp] at h
          rw [runLines, hp, List.filterMap_cons, hp]
          exact ih h
        | some w =>
          obtain ⟨f, fd, line⟩ := w
          rw [runErrOf, hp] at h
          rw [runLines, hp, List.filterMap_cons, hp]
          exact congrArg (line :: ·) (ih h)
  · intro d _ f fd line hpe
    exact processEntry_line up deps d f fd line hpe

theorem c6_output_lines_witness :
    (runEntries up0 "deps" (dataFoo :: []) fs0).2.1 =
      ["https://example.org/pkg/v1.0.tar.gz -> deps/foo-v1.0.tar.gz"] := by
  rw [(c6_output_lines up0 "deps" (dataFoo :: []) fs0 (by decide)).1]
  decide

/-- C9: a lockfile entry that has a `url` but no `name` raises an uncaught
Python `LookupError` that aborts the whole run before any artifact for the
entry is written; whenever the `data["name"]` access is reached (the
remote-clone branch, or the download branch with a non-empty basename) the
error is precisely the `KeyError` on `"name"`. -/
theorem c9_missing_name (up : Upstream) (deps : String) (data : EntryRec)
    (rest : List EntryRec) (fs : FS) (u : String)
    (hu : data.get? "url" = some u)
    (hn : data.get? "name" = none) :
    ∃ e, processEntry up deps data = .error e ∧ e.isLookup = true ∧
      runEntries up deps (data :: rest) fs = (fs, [], some e) ∧
      ((startsWithStr (urlparse u).scheme "git+" = true ∨
        (pathParts (urlparse u).path).getLast? ≠ none) →
        e = .keyError "name") := by
  by_cases hg : startsWithStr (urlparse u).scheme "git+" = true
  · have hp : processEntry up deps data = .error (.keyError "name") := by
      unfold processEntry
      rw [hu]
      simp only [hg, if_true, hn]
    exact ⟨.keyError "name", hp, rfl, by simp [runEntries, hp], fun _ => rfl⟩
  · cases hbn : (pathParts (urlparse u).path).getLast? with
    | none =>
      have hp : processEntry up deps data = .error .indexError := by
        unfold processEntry
        rw [hu]
        simp only [hg, Bool.false_eq_true, if_false, hbn]
      refine ⟨.indexError, hp, rfl, by simp [runEntries, hp], ?_⟩
      rintro (h1 | h2)
      · exact absurd h1 hg
      · exact absurd rfl h2
    | some b =>
      have hp : processEntry up deps data = .error (.keyError "name") := by
        unfold processEntry
        rw [hu]
        simp only [hg, Bool.false_eq_true, if_false, hbn, hn]
      exact ⟨.keyError "name", hp, rfl, by simp [runEntries, hp], fun _ => rfl⟩

/-- A lockfile entry with a `url` field but no `name` field. -/
def dataNoName : EntryRec := ⟨[("url", "https://example.org/pkg/v1.0.tar.gz")]⟩

theorem c9_missing_name_witness :
    processEntry up0 "deps" dataNoName = .error (.keyError "name") ∧
    runEntries up0 "deps" (dataNoName :: []) fs0 =
      (fs0, [], some (.keyError "name")) := by
  obtain ⟨e, h1, -, h3, h4⟩ := c9_missing_name up0 "deps" dataNoName [] fs0
    "https://example.org/pkg/v1.0.tar.gz" (by decide) (by decide)
  have he : e = .keyError "name" := h4 (Or.inr (by decide))
  rw [he] at h1 h3
  exact ⟨h1, h3⟩
